import Mathlib

/-!
Verification of the `bb-trace` LLVM module pass
(`perfvec/block_trace/tracer/passes/BasicBlockTracer.cpp`).

The pass walks a module's defined, non-runtime functions in order, assigns
dense `func_id` / `bb_id` / per-class `inst_id` identifiers, optionally
mutates the IR with runtime hook calls, emits per-load/store inline-assembly
records into `.bbtrace_inst`, dumps a JSONL static descriptor, and appends a
`.bbtrace_map` constant global.

This file is a shallow embedding of that pass: the IR fragments the pass
inspects (functions, blocks, loads, stores, branches, call sites and their
argument types) are plain inductive data, and the pass's traversal is a pure
function from a module to its observable outputs (static descriptor records,
PC-map entries, `.bbtrace_inst` records, inserted hook calls, ctor/dtor
registration).  Machine integers (`uint32_t` counters and ids) are modelled
as `Nat`; the pass only ever increments them, and no statement below depends
on wrap-around behaviour.
-/

namespace BBTrace

/-- `InstKind` from the source (`enum class InstKind`). -/
inductive InstKind : Type
  | generic
  | load
  | store
  | branch
  | call
deriving DecidableEq, Repr

/-- `CallArgKind` from the source (`enum class CallArgKind : uint32_t`). -/
inductive CallArgKind : Type
  | unknown
  | integer
  | pointer
  | floating
deriving DecidableEq, Repr

/-- The `uint32_t` encoding of `CallArgKind` used at the call-hook ABI. -/
def CallArgKind.toNat : CallArgKind → Nat
  | .unknown => 0
  | .integer => 1
  | .pointer => 2
  | .floating => 3

/-- `kInvalidLoopId = std::numeric_limits<uint32_t>::max()`. -/
def kInvalidLoopId : Nat := 2 ^ 32 - 1

/-- The static type of a call-site argument, carrying exactly the data-layout
queries `materializeCallArg` performs on it:
`pointer` carries `DL.getPointerSizeInBits(addrspace)` for its address space,
`integer` carries `getIntegerBitWidth`, `floating` carries
`getScalarSizeInBits` and `DL.getTypeStoreSizeInBits`, and `other` carries
`DL.getTypeStoreSizeInBits`. -/
inductive ArgTy : Type
  | pointer (addrSpaceBits : Nat)
  | integer (bits : Nat)
  | floating (scalarBits : Nat) (storeBits : Nat)
  | other (storeBits : Nat)
deriving DecidableEq, Repr

/-- Semantics of `CreatePtrToInt` to an integer type of width `width`:
the pointer's address bit pattern reduced to `width` bits. -/
def ptrToInt (width addr : Nat) : Nat := addr % 2 ^ width

/-- Semantics of `CreateZExt`: zero extension preserves the value. -/
def zextVal (v : Nat) : Nat := v

/-- Semantics of `CreateTrunc` to width `width`. -/
def truncVal (width v : Nat) : Nat := v % 2 ^ width

/-- Semantics of a same-width `CreateBitCast` to an integer type: the bit
pattern is unchanged. -/
def bitcastToIntVal (v : Nat) : Nat := v

/-- The `if (BitWidth < 64) zext; else if (BitWidth > 64) trunc;` chain that
`materializeCallArg` applies to bring a value of width `bw` to `i64`
(the final same-width-bitcast arm does not change the value). -/
def fit64 (bw v : Nat) : Nat :=
  if bw < 64 then zextVal v
  else if 64 < bw then truncVal 64 v
  else v

/-- Result of `materializeCallArg`: the out-parameters `Kind`, `BitWidth` and
the 64-bit value computed by the emitted conversion chain. -/
structure Marshalled where
  kind : CallArgKind
  bitWidth : Nat
  value : Nat
deriving DecidableEq, Repr

/-- `materializeCallArg` from the source. `dlPtrBits0` models
`DL.getPointerSizeInBits(0)` (the fallback when the address space reports
width 0); `v` is the argument's runtime bit pattern. -/
def materializeCallArg (dlPtrBits0 : Nat) (ty : ArgTy) (v : Nat) : Marshalled :=
  match ty with
  | .pointer asBits =>
      let bw := if asBits = 0 then dlPtrBits0 else asBits
      let ptrInt := ptrToInt (max bw 1) v
      { kind := .pointer, bitWidth := bw, value := fit64 bw ptrInt }
  | .integer w =>
      { kind := .integer, bitWidth := w, value := fit64 w v }
  | .floating sb storeb =>
      let bw := if sb = 0 then storeb else sb
      let bits := bitcastToIntVal v
      { kind := .floating, bitWidth := bw, value := fit64 bw bits }
  | .other storeb =>
      let bw := if storeb = 0 then 1 else storeb
      { kind := .unknown, bitWidth := bw, value := 0 }

/-- The `BitWidth` the source resolves for each argument type (including the
zero-width fallbacks). -/
def resolvedWidth (dlPtrBits0 : Nat) : ArgTy → Nat
  | .pointer asBits => if asBits = 0 then dlPtrBits0 else asBits
  | .integer w => w
  | .floating sb storeb => if sb = 0 then storeb else sb
  | .other storeb => if storeb = 0 then 1 else storeb

/-- Whether the argument type falls into the final `unknown` arm. -/
def isOtherTy : ArgTy → Bool
  | .other _ => true
  | _ => false

/-- The callee operand of a call instruction, as far as the pass inspects it:
a direct call to a named function (with `isa<IntrinsicInst>` as a flag), an
inline-assembly callee, or an indirect callee (`getCalledFunction() == null`
and not inline asm). -/
inductive Callee : Type
  | fn (name : String) (isIntrinsic : Bool)
  | inlineAsmCallee
  | indirect
deriving DecidableEq, Repr

/-- `Call.getCalledFunction()` name, when there is a direct callee. -/
def Callee.calleeName : Callee → Option String
  | .fn n _ => some n
  | _ => none

/-- `StringRef::starts_with`, modelled over the string's character list. -/
def startsWithPrefix (pre s : String) : Bool := List.isPrefixOf pre.data s.data

/-- `isBbtraceRuntimeCall`: direct callee whose name begins with `__bbtrace_`. -/
def isBbtraceRuntimeCall (c : Callee) : Bool :=
  match c.calleeName with
  | some n => startsWithPrefix "__bbtrace_" n
  | none => false

/-- `isInlineAsmCall`: the called operand is an `InlineAsm`. -/
def isInlineAsmCall : Callee → Bool
  | .inlineAsmCallee => true
  | _ => false

/-- `isa<IntrinsicInst>` for the call instruction. -/
def isIntrinsicCall : Callee → Bool
  | .fn _ i => i
  | _ => false

/-- An IR instruction, carrying exactly the data the pass reads from it.
`load`/`store` carry their pointer-operand value id and the byte store size
the pass queries (`DL.getTypeStoreSize` of the loaded type resp. of the value
operand's type).  Branch successors are identified by block `key`
(the block's identity, standing for its `BasicBlock *`); `brCond` also
carries the condition's value id.  `call` carries the callee operand and the
static types of the actual arguments.  `phi` only matters because
`getFirstInsertionPt` skips leading phis; every other instruction the pass
does not inspect is `other`. -/
inductive Inst : Type
  | phi
  | load (ptrOp : Nat) (storeSize : Nat)
  | store (ptrOp : Nat) (storeSize : Nat)
  | brUncond (succ0 : Nat)
  | brCond (cond : Nat) (succ0 : Nat) (succ1 : Nat)
  | call (callee : Callee) (args : List ArgTy)
  | other
deriving DecidableEq, Repr

/-- The `continue` filter at the top of the per-instruction loop: a call whose
direct callee name begins with `__bbtrace_`. -/
def isRuntimeCallInst : Inst → Bool
  | .call c _ => isBbtraceRuntimeCall c
  | _ => false

def isPhi : Inst → Bool
  | .phi => true
  | _ => false

/-- The guard under which a call site is instrumented
(`!isa<IntrinsicInst> && !isInlineAsmCall && !isBbtraceRuntimeCall`). -/
def isInstrumentedCallee (c : Callee) : Bool :=
  !isIntrinsicCall c && !isInlineAsmCall c && !isBbtraceRuntimeCall c

/-- A basic block: optional name, an identity `key` standing for its
`BasicBlock *` (successor references use keys), its instruction list, and
the results of the `LoopAnalysis` queries the pass makes on it —
`loopId` is `LoopIds.lookup(LoopInfo.getLoopFor(BB)).Id` when the block is
inside a loop, and `isLoopHeader` records
`LoopInfo.getLoopFor(BB)->getHeader() == &BB`. -/
structure BasicBlock where
  name : Option String
  key : Nat
  insts : List Inst
  loopId : Option Nat
  isLoopHeader : Bool
deriving DecidableEq, Repr

/-- An IR function: optional name, whether it is only a declaration, and its
blocks in layout order (the first block is the entry block). -/
structure IRFunc where
  name : Option String
  isDecl : Bool
  blocks : List BasicBlock
deriving DecidableEq, Repr

/-- An IR module: its `getModuleIdentifier()` string and its functions in
declaration order. -/
structure IRModule where
  moduleId : String
  functions : List IRFunc
deriving DecidableEq, Repr

/-- The data-layout queries the pass makes at module level:
`getPointerSizeInBits(0)` (marshalling fallback) and `getPointerSize()`
in bytes (PC-map alignment). -/
structure DataLayoutInfo where
  ptrBits0 : Nat
  ptrBytes : Nat
deriving DecidableEq, Repr

/-- `BlockIds.lookup(Succ)`: ids are assigned as the traversal index of each
block, so looking a key up returns the index of the block with that key
(a missing key yields `DenseMap`'s default `0`). -/
def lookupBlockId (blocks : List BasicBlock) (k : Nat) : Nat :=
  (blocks.findIdx? (fun b => b.key == k)).getD 0

/-- A block-entry address constant: the function pointer
(`ConstantExpr::getPointerCast(&F, ...)`) for the entry block, or
`BlockAddress::get(&F, &BB)` for any other block (identified by key). -/
inductive Addr : Type
  | funcPtr (funcId : Nat)
  | blockAddr (funcId : Nat) (key : Nat)
deriving DecidableEq, Repr

def Addr.isFuncPtr : Addr → Bool
  | .funcPtr _ => true
  | _ => false

/-- A value that is either a constant or the result of the
`CreateSelect(cond, t, f)` the pass materializes at a conditional branch. -/
inductive SelVal (α : Type) : Type
  | const (v : α)
  | select (cond : Nat) (ifTrue ifFalse : α)
deriving DecidableEq, Repr

/-- Runtime evaluation of a `SelVal` in an environment giving each condition
value id a boolean. -/
def SelVal.eval {α : Type} (env : Nat → Bool) : SelVal α → α
  | .const v => v
  | .select c t f => if env c then t else f

/-- `InstructionStaticInfo` from the source. -/
structure InstructionStaticInfo where
  kind : InstKind
  instId : Nat
  branchTargets : List Nat
  buffer : String
deriving DecidableEq, Repr

/-- `BlockStaticInfo` from the source. -/
structure BlockStaticInfo where
  funcId : Nat
  funcName : String
  bbId : Nat
  bbName : String
  header : String
  instructions : List InstructionStaticInfo
deriving DecidableEq, Repr

/-- `BlockPcInfo` from the source. -/
structure BlockPcInfo where
  funcId : Nat
  bbId : Nat
  address : Addr
deriving DecidableEq, Repr

/-- One `.bbtrace_inst` record as pushed by `emitInstPcRecord`'s inline
assembly: four 32-bit fields `(func_id, bb_id, inst_id, 0)` and a `.quad 1f`
relocation to the local label defined at the insertion site.  The label is
modelled by the site's (block key, position in the block's iterated
instruction sequence). -/
structure InstPcRecord where
  funcId : Nat
  bbId : Nat
  instId : Nat
  reserved : Nat
  labelSite : Nat × Nat
deriving DecidableEq, Repr

/-- `emitInstPcRecord` (the inline-assembly record it appends to
`.bbtrace_inst`; the `.long 0` reserved field is always zero). -/
def emitInstPcRecord (funcId bbId instId : Nat) (site : Nat × Nat) : InstPcRecord :=
  ⟨funcId, bbId, instId, 0, site⟩

/-- A runtime hook call inserted by the pass.  The dynamic operands that are
plain copies of existing IR values (`on_mem`'s address, `on_call`'s call-site
and target addresses, the marshalled argument values) are not replayed here;
`on_call` records the `(kind, bitwidth)` constants the pass materializes per
argument, whose accompanying 64-bit value is characterized separately by
`materializeCallArg`. -/
inductive Hook : Type
  | onBasicBlock (funcId bbId loopHint : Nat) (blockAddr : Addr)
  | onLoop (funcId loopId : Nat)
  | onMem (funcId bbId instId : Nat) (ptrOp : Nat) (size : Nat) (isStore : Bool)
  | onBranch (funcId bbId instId : Nat) (taken : SelVal Nat) (takenAddr : SelVal Addr)
  | onCall (funcId bbId instId : Nat) (numArgs : Nat) (argMeta : List (CallArgKind × Nat))
deriving DecidableEq, Repr

/-- The `(Kind, BitWidth)` constants pushed for one call-hook argument. -/
def callArgMeta (dlPtrBits0 : Nat) (ty : ArgTy) : CallArgKind × Nat :=
  ((materializeCallArg dlPtrBits0 ty 0).kind, (materializeCallArg dlPtrBits0 ty 0).bitWidth)

/-- The per-function `inst_id` counters (`NextMemInstId`, `NextBranchInstId`,
`NextCallInstId`). -/
structure Counters where
  nextMemInstId : Nat
  nextBranchInstId : Nat
  nextCallInstId : Nat
deriving DecidableEq, Repr

/-- Number of unnamed result values an original instruction defines in the
printed IR.  Loads and phis are modelled as defining unnamed temporaries
(`%N = ...`); stores and branches define no value; calls are modelled with a
void result (a non-void user call would add the same constant in both modes,
so it cannot create a mode difference; the hook calls the pass itself inserts
are void). -/
def resultSlots : Inst → Nat
  | .phi => 1
  | .load _ _ => 1
  | _ => 0

/-- Number of unnamed value definitions `materializeCallArg` inserts for one
argument (with non-constant operands, under opaque pointers): a `ptrtoint`
plus a `zext`/`trunc` when the resolved width is not 64 for pointers; a
`zext`/`trunc` when the width is not 64 for integers (an `i64` needs no
conversion); a `bitcast` plus a `zext`/`trunc` when the width is not 64 for
floats; nothing for `other` (the value is a constant zero). -/
def argCastSlots (dlPtrBits0 : Nat) : ArgTy → Nat
  | .pointer asBits =>
      let bw := if asBits = 0 then dlPtrBits0 else asBits
      1 + (if bw = 64 then 0 else 1)
  | .integer w => if w = 64 then 0 else 1
  | .floating sb storeb =>
      let bw := if sb = 0 then storeb else sb
      1 + (if bw = 64 then 0 else 1)
  | .other _ => 0

/-- Number of unnamed value definitions the pass inserts immediately before
an instruction when instrumentation is enabled: two `select`s at a
conditional branch; the `returnaddress` call plus the argument conversion
chains at an instrumented call site.  Everything else the pass inserts is
void (hook calls, the inline asm) or a constant / no-op pointer cast under
opaque pointers, and defines no value. -/
def insertedValueSlots (dlPtrBits0 : Nat) : Inst → Nat
  | .brCond _ _ _ => 2
  | .call c args =>
      if isInstrumentedCallee c then 1 + (args.map (argCastSlots dlPtrBits0)).sum
      else 0
  | _ => 0

/-- How far the slot counter advances past one original instruction: its own
unnamed results, plus (in instrumented mode) the unnamed values the pass
inserted before it.  The insertions happen after the instruction's own text
is captured, so they affect only later instructions' numbering. -/
def slotStep (enable : Bool) (dlPtrBits0 : Nat) (i : Inst) : Nat :=
  resultSlots i + (if enable then insertedValueSlots dlPtrBits0 i else 0)

def slotDeltaList (enable : Bool) (dlPtrBits0 : Nat) (l : List Inst) : Nat :=
  (l.map (slotStep enable dlPtrBits0)).sum

/-- `printInstruction` (two-space-indented `I.print`).  The rendering is
schematic, but it is context dependent exactly the way LLVM's printer is:
an unnamed result is rendered as `%slot`, where `slot` counts the unnamed
definitions (and unnamed block labels) that precede the instruction in the
function's current — possibly already instrumented — state at the moment the
pass prints it.  Instructions that define no value do not mention the slot. -/
def printInstructionAt (slot : Nat) (i : Inst) : String :=
  "  " ++ (match i with
  | .phi => "%" ++ toString slot ++ " = phi"
  | .load p s =>
      "%" ++ toString slot ++ " = load p" ++ toString p ++ " size " ++ toString s
  | .store p s => "store p" ++ toString p ++ " size " ++ toString s
  | .brUncond s0 => "br k" ++ toString s0
  | .brCond c s0 s1 =>
      "br c" ++ toString c ++ " k" ++ toString s0 ++ " k" ++ toString s1
  | .call c args =>
      let cs := match c with
        | .fn n _ => n
        | .inlineAsmCallee => "asm"
        | .indirect => "indirect"
      "call " ++ cs ++ " args " ++ toString args.length
  | .other => "other")

/-- Erase the printed text of one descriptor instruction, keeping kind,
`inst_id` and branch targets. -/
def stripText (i : InstructionStaticInfo) : InstructionStaticInfo :=
  { i with buffer := "" }

/-- Erase the printed texts of one descriptor record. -/
def stripBlockText (b : BlockStaticInfo) : BlockStaticInfo :=
  { b with instructions := b.instructions.map stripText }

/-- Block display name: `BB.hasName() ? BB.getName() : "bb_<BbId>"`. -/
def blockDisplayName (bb : BasicBlock) (bbId : Nat) : String :=
  match bb.name with
  | some n => n
  | none => "bb_" ++ toString bbId

/-- `makeBlockHeader`: the display name followed by a colon. -/
def makeBlockHeader (bb : BasicBlock) (bbId : Nat) : String :=
  blockDisplayName bb bbId ++ ":"

/-- Function display name used in descriptor records:
`F.hasName() ? F.getName() : "func_<FuncId>"`. -/
def funcDisplayName (F : IRFunc) (funcId : Nat) : String :=
  match F.name with
  | some n => n
  | none => "func_" ++ toString funcId

/-- `instKindToString`. -/
def instKindToString : InstKind → String
  | .load => "load"
  | .store => "store"
  | .branch => "branch"
  | .call => "call"
  | .generic => "generic"

/-- Result of processing one instruction of the per-instruction loop:
`info` is the `InstructionStaticInfo` pushed into the block's record
(`none` when the runtime-call `continue` fires), `records` the
`.bbtrace_inst` records emitted, `hooks` the runtime hook calls inserted,
`cnt` the updated `inst_id` counters. -/
structure InstStep where
  info : Option InstructionStaticInfo
  records : List InstPcRecord
  hooks : List Hook
  cnt : Counters
deriving DecidableEq, Repr

/-- The body of the per-instruction loop in `instrumentFunction`.
`blocks` is the function's original block list (backing `BlockIds`),
`bkey`/`pos` locate the instruction (block key and position in the iterated
sequence, used only as the inline-asm label site); `slot` is the printer's
slot counter at this instruction (see `printInstructionAt`).

Note the two asymmetries of the source faithfully kept here:
`emitInstPcRecord` for loads and stores is *outside* the
`EnableInstrumentation` guard (records are emitted even in static-only
mode), and the instrumented-call arm emits *no* `.bbtrace_inst` record. -/
def processInst (enable : Bool) (dl : DataLayoutInfo) (funcId bbId : Nat)
    (blocks : List BasicBlock) (bkey pos slot : Nat) (cnt : Counters) (i : Inst) : InstStep :=
  if isRuntimeCallInst i then
    -- `if (isBbtraceRuntimeCall(*Call)) continue;`
    ⟨none, [], [], cnt⟩
  else
    let buf := printInstructionAt slot i
    match i with
    | .load p sz =>
        let instId := cnt.nextMemInstId
        ⟨some ⟨.load, instId, [], buf⟩,
         [emitInstPcRecord funcId bbId instId (bkey, pos)],
         if enable then [Hook.onMem funcId bbId instId p sz false] else [],
         { cnt with nextMemInstId := cnt.nextMemInstId + 1 }⟩
    | .store p sz =>
        let instId := cnt.nextMemInstId
        ⟨some ⟨.store, instId, [], buf⟩,
         [emitInstPcRecord funcId bbId instId (bkey, pos)],
         if enable then [Hook.onMem funcId bbId instId p sz true] else [],
         { cnt with nextMemInstId := cnt.nextMemInstId + 1 }⟩
    | .brUncond s0 =>
        let instId := cnt.nextBranchInstId
        let tid := lookupBlockId blocks s0
        ⟨some ⟨.branch, instId, [tid], buf⟩,
         [],
         if enable then
           [Hook.onBranch funcId bbId instId (.const tid)
             (.const (.blockAddr funcId s0))]
         else [],
         { cnt with nextBranchInstId := cnt.nextBranchInstId + 1 }⟩
    | .brCond c s0 s1 =>
        let instId := cnt.nextBranchInstId
        let t0 := lookupBlockId blocks s0
        let t1 := lookupBlockId blocks s1
        ⟨some ⟨.branch, instId, [t0, t1], buf⟩,
         [],
         if enable then
           [Hook.onBranch funcId bbId instId (.select c t0 t1)
             (.select c (.blockAddr funcId s0) (.blockAddr funcId s1))]
         else [],
         { cnt with nextBranchInstId := cnt.nextBranchInstId + 1 }⟩
    | .call c args =>
        if isInstrumentedCallee c then
          let instId := cnt.nextCallInstId
          ⟨some ⟨.call, instId, [], buf⟩,
           [],
           if enable then
             [Hook.onCall funcId bbId instId args.length
               (args.map (callArgMeta dl.ptrBits0))]
           else [],
           { cnt with nextCallInstId := cnt.nextCallInstId + 1 }⟩
        else
          -- intrinsic / inline-asm call: no id, no hook, kind stays generic
          ⟨some ⟨.generic, 0, [], buf⟩, [], [], cnt⟩
    | _ => ⟨some ⟨.generic, 0, [], buf⟩, [], [], cnt⟩

/-- Accumulated results of the per-instruction loop over a list. -/
structure InstsOut where
  infos : List InstructionStaticInfo
  records : List InstPcRecord
  hooks : List Hook
  cnt : Counters
deriving DecidableEq, Repr

/-- The per-instruction loop (`for (Instruction &I : BB)`), threading the
position and the printer slot counter. -/
def processInsts (enable : Bool) (dl : DataLayoutInfo) (funcId bbId : Nat)
    (blocks : List BasicBlock) (bkey : Nat) : Nat → Nat → Counters → List Inst → InstsOut
  | _, _, cnt, [] => ⟨[], [], [], cnt⟩
  | pos, slot, cnt, i :: rest =>
      let s := processInst enable dl funcId bbId blocks bkey pos slot cnt i
      let r := processInsts enable dl funcId bbId blocks bkey (pos + 1)
        (slot + slotStep enable dl.ptrBits0 i) s.cnt rest
      ⟨s.info.toList ++ r.infos, s.records ++ r.records, s.hooks ++ r.hooks, r.cnt⟩

/-- The hook call instructions the pass inserts at the block's first insertion
point (in instrumented mode).  They become part of the block's instruction
list, so the per-instruction loop visits them — which is why the runtime-call
`continue` filter exists.  Their i32/pointer constant operands are never
inspected by the loop (the filter fires on the callee name first), so the
argument list is left empty. -/
def bbHookCallInst : Inst := .call (.fn "__bbtrace_on_basic_block" false) []

def loopHookCallInst : Inst := .call (.fn "__bbtrace_on_loop" false) []

/-- The instruction sequence the per-instruction loop actually iterates.
In instrumented mode, the `on_basic_block` call is inserted at
`getFirstInsertionPt` (after leading phis) and, for loop headers, the
`on_loop` call is then inserted at the recomputed first insertion point,
which places it *before* the `on_basic_block` call. -/
def iteratedInsts (enable isHeader : Bool) (insts : List Inst) : List Inst :=
  if enable then
    insts.takeWhile isPhi
      ++ (if isHeader then [loopHookCallInst] else [])
      ++ [bbHookCallInst]
      ++ insts.dropWhile isPhi
  else insts

/-- The block-entry hook calls inserted in instrumented mode, recorded in the
order the pass creates them (`on_basic_block` first, then the header's
`on_loop`; in program order the `on_loop` call comes first, as reflected by
`iteratedInsts`). -/
def entryHooks (enable : Bool) (funcId bbId : Nat) (bb : BasicBlock) (addr : Addr) :
    List Hook :=
  if enable then
    Hook.onBasicBlock funcId bbId (bb.loopId.getD kInvalidLoopId) addr
      :: (match bb.loopId with
          | some lid => if bb.isLoopHeader then [Hook.onLoop funcId lid] else []
          | none => [])
  else []

/-- Per-function results of `instrumentFunction`. -/
structure FuncOut where
  staticInfos : List BlockStaticInfo
  pcInfos : List BlockPcInfo
  records : List InstPcRecord
  hooks : List Hook
  cnt : Counters
deriving DecidableEq, Repr

/-- The per-block loop (`for (BasicBlock &BB : F)`).  `bbIdx` is the block's
`BlockIds` value, i.e. its traversal index; the entry block is the one at
index 0 (`&BB == &F.getEntryBlock()`). -/
def processBlocks (enable : Bool) (dl : DataLayoutInfo) (funcId : Nat) (fname : String)
    (blocks : List BasicBlock) : Nat → Nat → Counters → List BasicBlock → FuncOut
  | _, _, cnt, [] => ⟨[], [], [], [], cnt⟩
  | bbIdx, slot, cnt, bb :: rest =>
      let addr : Addr := if bbIdx = 0 then .funcPtr funcId else .blockAddr funcId bb.key
      -- an unnamed block's label takes the next slot before its instructions
      let slotL := slot + (if bb.name.isNone then 1 else 0)
      let iter := iteratedInsts enable bb.isLoopHeader bb.insts
      let io := processInsts enable dl funcId bbIdx blocks bb.key 0 slotL cnt iter
      let binfo : BlockStaticInfo :=
        ⟨funcId, fname, bbIdx, blockDisplayName bb bbIdx, makeBlockHeader bb bbIdx, io.infos⟩
      let r := processBlocks enable dl funcId fname blocks (bbIdx + 1)
        (slotL + slotDeltaList enable dl.ptrBits0 iter) io.cnt rest
      ⟨binfo :: r.staticInfos,
       ⟨funcId, bbIdx, addr⟩ :: r.pcInfos,
       io.records ++ r.records,
       entryHooks enable funcId bbIdx bb addr ++ io.hooks ++ r.hooks,
       r.cnt⟩

/-- `instrumentFunction`: processes one eligible function, producing its
descriptor records, PC-map entries, `.bbtrace_inst` records and hooks.  The
printer slot counter starts at the number of the function's unnamed
arguments, a mode-independent constant taken as 0 in the model. -/
def instrumentFunction (enable : Bool) (dl : DataLayoutInfo) (funcId : Nat)
    (F : IRFunc) : FuncOut :=
  processBlocks enable dl funcId (funcDisplayName F funcId) F.blocks 0 0 ⟨0, 0, 0⟩ F.blocks

/-- Function eligibility: has a body and its name does not begin with the
runtime prefix (unnamed functions have `getName() == ""`). -/
def isEligible (F : IRFunc) : Bool :=
  !F.isDecl && !(startsWithPrefix "__bbtrace_" (F.name.getD ""))

/-- Module-level accumulation across eligible functions. -/
structure ModuleAcc where
  staticInfos : List BlockStaticInfo
  pcInfos : List BlockPcInfo
  records : List InstPcRecord
  hooks : List Hook
deriving DecidableEq, Repr

/-- The function loop of `instrumentModule`: eligible functions get dense
`func_id`s starting at 0; declarations and runtime-prefixed functions are
skipped without consuming an id. -/
def processFunctions (enable : Bool) (dl : DataLayoutInfo) :
    Nat → List IRFunc → ModuleAcc
  | _, [] => ⟨[], [], [], []⟩
  | fid, F :: rest =>
      if isEligible F then
        let r := instrumentFunction enable dl fid F
        let acc := processFunctions enable dl (fid + 1) rest
        ⟨r.staticInfos ++ acc.staticInfos, r.pcInfos ++ acc.pcInfos,
         r.records ++ acc.records, r.hooks ++ acc.hooks⟩
      else
        processFunctions enable dl fid rest

/-- What `ensureCtorDtor` adds to the module: a private ctor calling
`__bbtrace_register_module` on the module-name global (whose content is the
module identifier), a private dtor calling `__bbtrace_finalize`, both
registered at priority 0. -/
structure CtorDtorInfo where
  ctorCallee : String
  ctorArg : String
  dtorCallee : String
  priority : Nat
  moduleNameGlobal : String
deriving DecidableEq, Repr

def ensureCtorDtor (M : IRModule) : CtorDtorInfo :=
  ⟨"__bbtrace_register_module", M.moduleId, "__bbtrace_finalize", 0, M.moduleId⟩

/-- The two retention lists a global can be appended to:
`appendToCompilerUsed` puts it in `llvm.compiler.used`, `appendToUsed` in
`llvm.used`. -/
inductive RetentionMarking : Type
  | compilerUsed
  | used
deriving DecidableEq, Repr

/-- LLVM semantics of the two retention lists (LangRef): only membership in
`llvm.used` is carried to the object file as `SHF_GNU_RETAIN` (ELF) /
`no_dead_strip` (Mach-O) and prevents the linker from discarding the symbol
under section garbage collection; `llvm.compiler.used` constrains only the
compiler and does not survive link-time dead-stripping. -/
def survivesLinkGC : RetentionMarking → Bool
  | .used => true
  | .compilerUsed => false

/-- The `.bbtrace_map` global emitted by `emitPcMap`: a private constant array
of `{u32 func_id, u32 bb_id, intptr address}` entries, with its section name,
alignment, and the retention list it was appended to. -/
structure PcMapGlobal where
  entries : List (Nat × Nat × Addr)
  sectionName : String
  alignment : Nat
  isConstant : Bool
  retention : RetentionMarking
deriving DecidableEq, Repr

/-- `emitPcMap`: returns early (no global) when there are no entries.  The
source marks the global with `appendToCompilerUsed(M, GV)`. -/
def emitPcMap (dl : DataLayoutInfo) (infos : List BlockPcInfo) : Option PcMapGlobal :=
  if infos.isEmpty then none
  else
    some
      { entries := infos.map (fun e => (e.funcId, e.bbId, e.address)),
        sectionName := ".bbtrace_map",
        alignment := dl.ptrBytes,
        isConstant := true,
        retention := .compilerUsed }

/-- Minimal JSON string escaping (backslash and double quote; descriptor
strings produced by this embedding contain no control characters). -/
def jsonEscapeChar (c : Char) : String :=
  if c = '\\' then "\\\\"
  else if c = '\"' then "\\\""
  else String.singleton c

def jsonStr (s : String) : String :=
  "\"" ++ String.join (s.data.map jsonEscapeChar) ++ "\""

def commaSep (l : List String) : String :=
  String.intercalate "," l

/-- One `insts` element, serialized the way `llvm::json` prints it: compact,
object keys in sorted order (`inst_id`, `kind`, `targets`, `text`), with
`inst_id` present iff the kind is not generic and `targets` present iff the
branch-target list is nonempty. -/
def serializeInst (i : InstructionStaticInfo) : String :=
  "\x7b"
    ++ (if i.kind = InstKind.generic then ""
        else "\"inst_id\":" ++ toString i.instId ++ ",")
    ++ "\"kind\":" ++ jsonStr (instKindToString i.kind)
    ++ (if i.branchTargets.isEmpty then ""
        else ",\"targets\":[" ++ commaSep (i.branchTargets.map toString) ++ "]")
    ++ ",\"text\":" ++ jsonStr i.buffer
    ++ "\x7d"

/-- One descriptor line: keys in sorted order (`bb_id`, `bb_name`, `func_id`,
`func_name`, `header`, `insts`). -/
def serializeBlock (b : BlockStaticInfo) : String :=
  "\x7b\"bb_id\":" ++ toString b.bbId
    ++ ",\"bb_name\":" ++ jsonStr b.bbName
    ++ ",\"func_id\":" ++ toString b.funcId
    ++ ",\"func_name\":" ++ jsonStr b.funcName
    ++ ",\"header\":" ++ jsonStr b.header
    ++ ",\"insts\":[" ++ commaSep (b.instructions.map serializeInst) ++ "]\x7d"

/-- `dumpBasicBlockInfo`: when there are no records, the function returns
before creating the `bbtrace_static` directory or the file; otherwise the
file content is one serialized record per line.  (The I/O failure path, in
which an unwritable path silently skips emission, is not modelled; the
result is the content written on success.) -/
def dumpBasicBlockInfo (infos : List BlockStaticInfo) : Option String :=
  if infos.isEmpty then none
  else some (String.join (infos.map (fun b => serializeBlock b ++ "\n")))

/-- Everything observable the pass does to a module. -/
structure ModuleOut where
  ctorDtor : Option CtorDtorInfo
  staticInfos : List BlockStaticInfo
  pcInfos : List BlockPcInfo
  records : List InstPcRecord
  hooks : List Hook
  descriptor : Option String
  pcMap : Option PcMapGlobal
deriving DecidableEq, Repr

/-- `instrumentModule`: ctor/dtor setup (instrumented mode only), the function
loop, descriptor dump and PC-map emission.  The ctor/dtor functions created
in instrumented mode are themselves named `__bbtrace_ctor` / `__bbtrace_dtor`
and are skipped by the name filter of the function loop, so they consume no
`func_id`; they are therefore not part of the modelled function list. -/
def instrumentModule (enable : Bool) (dl : DataLayoutInfo) (M : IRModule) : ModuleOut :=
  let acc := processFunctions enable dl 0 M.functions
  { ctorDtor := if enable then some (ensureCtorDtor M) else none,
    staticInfos := acc.staticInfos,
    pcInfos := acc.pcInfos,
    records := acc.records,
    hooks := acc.hooks,
    descriptor := dumpBasicBlockInfo acc.staticInfos,
    pcMap := emitPcMap dl acc.pcInfos }

/-- `isStaticOnlyMode`: first character of `BBTRACE_STATIC_ONLY` in
`{1, T, t, Y, y}` (unset, or empty string, means instrumented mode). -/
def isStaticOnlyMode (env : Option String) : Bool :=
  match env with
  | none => false
  | some s =>
      match s.data with
      | [] => false
      | c :: _ => c = '1' || c = 'T' || c = 't' || c = 'Y' || c = 'y'

/-- The pass as run on a module, with the environment variable's value. -/
def runPass (env : Option String) (dl : DataLayoutInfo) (M : IRModule) : ModuleOut :=
  instrumentModule (!isStaticOnlyMode env) dl M

/-! Counting and observation helpers used to state the claims. -/

/-- Number of loads and stores in an instruction list. -/
def countMemList : List Inst → Nat
  | [] => 0
  | .load _ _ :: rest => countMemList rest + 1
  | .store _ _ :: rest => countMemList rest + 1
  | _ :: rest => countMemList rest

/-- Number of branch instructions in an instruction list. -/
def countBranchList : List Inst → Nat
  | [] => 0
  | .brUncond _ :: rest => countBranchList rest + 1
  | .brCond _ _ _ :: rest => countBranchList rest + 1
  | _ :: rest => countBranchList rest

/-- Number of instrumented call sites (non-intrinsic, non-inline-asm,
non-runtime) in an instruction list. -/
def countCallList : List Inst → Nat
  | [] => 0
  | .call c _ :: rest =>
      countCallList rest + (if isInstrumentedCallee c then 1 else 0)
  | _ :: rest => countCallList rest

def countMemFunc (F : IRFunc) : Nat :=
  (F.blocks.map (fun b => countMemList b.insts)).sum

def countBranchFunc (F : IRFunc) : Nat :=
  (F.blocks.map (fun b => countBranchList b.insts)).sum

def countCallFunc (F : IRFunc) : Nat :=
  (F.blocks.map (fun b => countCallList b.insts)).sum

/-- Instrumented loads + stores across all eligible blocks of a module. -/
def countMemModule (M : IRModule) : Nat :=
  ((M.functions.filter isEligible).map countMemFunc).sum

/-- Instrumented calls across all eligible blocks of a module. -/
def countCallModule (M : IRModule) : Nat :=
  ((M.functions.filter isEligible).map countCallFunc).sum

/-- All instruction records of a function result, in traversal order. -/
def flatInsts (l : List BlockStaticInfo) : List InstructionStaticInfo :=
  l.foldr (fun b acc => b.instructions ++ acc) []

def isMemKind : InstKind → Bool
  | .load => true
  | .store => true
  | _ => false

/-- The `inst_id`s of a given kind-class, in traversal order. -/
def idsOfClass (p : InstKind → Bool) (l : List InstructionStaticInfo) : List Nat :=
  (l.filter (fun i => p i.kind)).map (fun i => i.instId)

/-- `idRange s n = [s, s+1, ..., s+n-1]`. -/
def idRange : Nat → Nat → List Nat
  | _, 0 => []
  | s, n + 1 => s :: idRange (s + 1) n

def isMemInst : Inst → Bool
  | .load _ _ => true
  | .store _ _ => true
  | _ => false

def isBranchInst : Inst → Bool
  | .brUncond _ => true
  | .brCond _ _ _ => true
  | _ => false

def isInstrumentedCallInst : Inst → Bool
  | .call c _ => isInstrumentedCallee c
  | _ => false

def isBranchKind : InstKind → Bool
  | .branch => true
  | _ => false

def isCallKind : InstKind → Bool
  | .call => true
  | _ => false

/-- The expected PC-map entries of one function, written from the spec's
words: the entry block's address is the function pointer, every other
block's address is that block's block-address constant. -/
def pcMapSpec (funcId : Nat) : Nat → List BasicBlock → List BlockPcInfo
  | _, [] => []
  | idx, bb :: rest =>
      ⟨funcId, idx, if idx = 0 then .funcPtr funcId else .blockAddr funcId bb.key⟩
        :: pcMapSpec funcId (idx + 1) rest

/-- The bit width of the value representation `materializeCallArg` converts
from: the width of the integer type it first brings the argument to
(`max(BitWidth, 1)` for pointers and floats, the integer's own width for
integers; for `other` arguments the value is not read at all). -/
def argBitWidth (dlPtrBits0 : Nat) (ty : ArgTy) : Nat :=
  max (resolvedWidth dlPtrBits0 ty) 1

/-! Concrete fixtures for counterexamples and witnesses. -/

def dl0 : DataLayoutInfo := ⟨64, 8⟩

/-- A module with a single eligible function whose block has one instrumented
call (and a return): the claimed `.bbtrace_inst` count would be 1, the pass
emits 0 records. -/
def exCallM : IRModule :=
  ⟨"m.bc", [⟨some "f", false,
    [⟨some "entry", 0, [.call (.fn "h" false) [.integer 32], .other], none, false⟩]⟩]⟩

/-- A function whose block contains a call to `__bbtrace_helper` followed by
one other instruction. -/
def exRuntimeCallF : IRFunc :=
  ⟨some "g", false,
    [⟨some "entry", 0, [.call (.fn "__bbtrace_helper" false) [], .other], none, false⟩]⟩

/-- A module with a single eligible function containing one load. -/
def exLoadM : IRModule :=
  ⟨"m.bc", [⟨some "f", false,
    [⟨some "entry", 0, [.load 1 4, .other], none, false⟩]⟩]⟩

/-- The PC-map global the pass emits for `exLoadM`. -/
def exLoadPcMap : PcMapGlobal :=
  ⟨[(0, 0, .funcPtr 0)], ".bbtrace_map", 8, true, .compilerUsed⟩

/-- A module with a conditional branch in the entry block and a load in the
next block.  In instrumented mode the two selects inserted at the branch
shift the slot numbering of the later load, so its printed text — and hence
the descriptor file bytes — differ from static-only mode. -/
def exBrM : IRModule :=
  ⟨"m.bc", [⟨some "f", false,
    [⟨some "entry", 0, [.brCond 1 2 0], none, false⟩,
     ⟨some "next", 2, [.load 3 4, .other], none, false⟩]⟩]⟩

/-- A module whose functions are all ineligible: one declaration and one
defined runtime-prefixed function. -/
def exIneligibleM : IRModule :=
  ⟨"m.bc", [⟨some "ext", true, []⟩,
    ⟨some "__bbtrace_helper", false,
      [⟨some "entry", 7, [.other], none, false⟩]⟩]⟩

/-! ### Basic list lemmas -/

lemma idsOfClass_append (p : InstKind → Bool) (a b : List InstructionStaticInfo) :
    idsOfClass p (a ++ b) = idsOfClass p a ++ idsOfClass p b := by
  simp [idsOfClass]

lemma flatInsts_cons (b : BlockStaticInfo) (l : List BlockStaticInfo) :
    flatInsts (b :: l) = b.instructions ++ flatInsts l := rfl

lemma idRange_append (s m n : Nat) :
    idRange s m ++ idRange (s + m) n = idRange s (m + n) := by
  induction m generalizing s with
  | zero => simp [idRange]
  | succ k ih =>
      have h1 : s + (k + 1) = (s + 1) + k := by omega
      have h2 : k + 1 + n = (k + n) + 1 := by omega
      simp only [idRange, List.cons_append, h1, h2, ih]

lemma countMemList_append (a b : List Inst) :
    countMemList (a ++ b) = countMemList a + countMemList b := by
  induction a with
  | nil => simp [countMemList]
  | cons i rest ih => cases i <;> simp [countMemList, ih] <;> omega

lemma countBranchList_append (a b : List Inst) :
    countBranchList (a ++ b) = countBranchList a + countBranchList b := by
  induction a with
  | nil => simp [countBranchList]
  | cons i rest ih => cases i <;> simp [countBranchList, ih] <;> omega

lemma countCallList_append (a b : List Inst) :
    countCallList (a ++ b) = countCallList a + countCallList b := by
  induction a with
  | nil => simp [countCallList]
  | cons i rest ih => cases i <;> simp [countCallList, ih] <;> omega

/-! ### Per-instruction step lemmas -/

lemma optionToListMap {A B : Type} (f : A → B) (o : Option A) :
    o.toList.map f = (o.map f).toList := by
  cases o <;> rfl

lemma processInst_spec (e : Bool) (dl : DataLayoutInfo) (fid bbid : Nat)
    (blocks : List BasicBlock) (k p slot : Nat) (cnt : Counters) (i : Inst) :
    (processInst e dl fid bbid blocks k p slot cnt i).cnt.nextMemInstId
        = cnt.nextMemInstId + (if isMemInst i then 1 else 0) ∧
    (processInst e dl fid bbid blocks k p slot cnt i).cnt.nextBranchInstId
        = cnt.nextBranchInstId + (if isBranchInst i then 1 else 0) ∧
    (processInst e dl fid bbid blocks k p slot cnt i).cnt.nextCallInstId
        = cnt.nextCallInstId + (if isInstrumentedCallInst i then 1 else 0) ∧
    (processInst e dl fid bbid blocks k p slot cnt i).records.length
        = (if isMemInst i then 1 else 0) ∧
    idsOfClass isMemKind (processInst e dl fid bbid blocks k p slot cnt i).info.toList
        = (if isMemInst i then [cnt.nextMemInstId] else []) ∧
    idsOfClass isBranchKind (processInst e dl fid bbid blocks k p slot cnt i).info.toList
        = (if isBranchInst i then [cnt.nextBranchInstId] else []) ∧
    idsOfClass isCallKind (processInst e dl fid bbid blocks k p slot cnt i).info.toList
        = (if isInstrumentedCallInst i then [cnt.nextCallInstId] else []) := by
  cases i <;>
    simp [processInst, isRuntimeCallInst, isMemInst, isBranchInst, isInstrumentedCallInst,
      idsOfClass, isMemKind, isBranchKind, isCallKind, emitInstPcRecord]
  case call c args =>
    by_cases h : isBbtraceRuntimeCall c
    · simp [h, isInstrumentedCallee]
    · by_cases h2 : isInstrumentedCallee c <;>
        simp [h, h2, idsOfClass, isMemKind, isBranchKind, isCallKind]

/-- Text-erased descriptor entry, records and counters of one step do not
depend on the mode or on the printer slot (only the `buffer` field and the
hooks do). -/
lemma processInst_stripped (e e' : Bool) (dl : DataLayoutInfo) (fid bbid : Nat)
    (blocks : List BasicBlock) (k p slot slot' : Nat) (cnt : Counters) (i : Inst) :
    (processInst e dl fid bbid blocks k p slot cnt i).info.map stripText
        = (processInst e' dl fid bbid blocks k p slot' cnt i).info.map stripText ∧
    (processInst e dl fid bbid blocks k p slot cnt i).records
        = (processInst e' dl fid bbid blocks k p slot' cnt i).records ∧
    (processInst e dl fid bbid blocks k p slot cnt i).cnt
        = (processInst e' dl fid bbid blocks k p slot' cnt i).cnt := by
  cases i <;> simp [processInst, isRuntimeCallInst, stripText]
  all_goals
    rename_i c args
    by_cases h : isBbtraceRuntimeCall c
    · simp [h]
    · by_cases h2 : isInstrumentedCallee c <;> simp [h, h2, stripText]

/-- For a fixed mode, the text-erased descriptor entry, the hooks and the
counters of one step do not depend on the label position or printer slot. -/
lemma processInst_site (e : Bool) (dl : DataLayoutInfo) (fid bbid : Nat)
    (blocks : List BasicBlock) (k p p' slot slot' : Nat) (cnt : Counters) (i : Inst) :
    (processInst e dl fid bbid blocks k p slot cnt i).info.map stripText
        = (processInst e dl fid bbid blocks k p' slot' cnt i).info.map stripText ∧
    (processInst e dl fid bbid blocks k p slot cnt i).hooks
        = (processInst e dl fid bbid blocks k p' slot' cnt i).hooks ∧
    (processInst e dl fid bbid blocks k p slot cnt i).cnt
        = (processInst e dl fid bbid blocks k p' slot' cnt i).cnt := by
  cases i <;> simp [processInst, isRuntimeCallInst, stripText]
  all_goals
    rename_i c args
    by_cases h : isBbtraceRuntimeCall c
    · simp [h]
    · by_cases h2 : isInstrumentedCallee c <;> simp [h, h2, stripText]

lemma processInst_hooks_false (dl : DataLayoutInfo) (fid bbid : Nat)
    (blocks : List BasicBlock) (k p slot : Nat) (cnt : Counters) (i : Inst) :
    (processInst false dl fid bbid blocks k p slot cnt i).hooks = [] := by
  cases i <;> simp [processInst, isRuntimeCallInst]
  all_goals
    rename_i c args
    by_cases h : isBbtraceRuntimeCall c
    · simp [h]
    · by_cases h2 : isInstrumentedCallee c <;> simp [h, h2]

lemma processInst_runtime (e : Bool) (dl : DataLayoutInfo) (fid bbid : Nat)
    (blocks : List BasicBlock) (k p slot : Nat) (cnt : Counters) (i : Inst)
    (h : isRuntimeCallInst i = true) :
    processInst e dl fid bbid blocks k p slot cnt i = ⟨none, [], [], cnt⟩ := by
  simp [processInst, h]

lemma countMemList_cons (i : Inst) (rest : List Inst) :
    countMemList (i :: rest) = (if isMemInst i then 1 else 0) + countMemList rest := by
  cases i <;> simp [countMemList, isMemInst] <;> omega

lemma countBranchList_cons (i : Inst) (rest : List Inst) :
    countBranchList (i :: rest) = (if isBranchInst i then 1 else 0) + countBranchList rest := by
  cases i <;> simp [countBranchList, isBranchInst] <;> omega

lemma countCallList_cons (i : Inst) (rest : List Inst) :
    countCallList (i :: rest)
      = (if isInstrumentedCallInst i then 1 else 0) + countCallList rest := by
  cases i <;> simp [countCallList, isInstrumentedCallInst] <;> omega

lemma processInst_reserved (e : Bool) (dl : DataLayoutInfo) (fid bbid : Nat)
    (blocks : List BasicBlock) (k p slot : Nat) (cnt : Counters) (i : Inst) :
    ∀ r ∈ (processInst e dl fid bbid blocks k p slot cnt i).records, r.reserved = 0 := by
  cases i <;> simp [processInst, isRuntimeCallInst, emitInstPcRecord]
  all_goals
    rename_i c args
    by_cases h : isBbtraceRuntimeCall c
    · simp [h]
    · by_cases h2 : isInstrumentedCallee c <;> simp [h, h2]

/-! ### Per-instruction-loop lemmas -/

lemma processInsts_append (e : Bool) (dl : DataLayoutInfo) (fid bbid : Nat)
    (blocks : List BasicBlock) (k : Nat) (l1 l2 : List Inst) :
    ∀ (p slot : Nat) (cnt : Counters),
    processInsts e dl fid bbid blocks k p slot cnt (l1 ++ l2) =
      ⟨(processInsts e dl fid bbid blocks k p slot cnt l1).infos
         ++ (processInsts e dl fid bbid blocks k (p + l1.length)
               (slot + slotDeltaList e dl.ptrBits0 l1)
               (processInsts e dl fid bbid blocks k p slot cnt l1).cnt l2).infos,
       (processInsts e dl fid bbid blocks k p slot cnt l1).records
         ++ (processInsts e dl fid bbid blocks k (p + l1.length)
               (slot + slotDeltaList e dl.ptrBits0 l1)
               (processInsts e dl fid bbid blocks k p slot cnt l1).cnt l2).records,
       (processInsts e dl fid bbid blocks k p slot cnt l1).hooks
         ++ (processInsts e dl fid bbid blocks k (p + l1.length)
               (slot + slotDeltaList e dl.ptrBits0 l1)
               (processInsts e dl fid bbid blocks k p slot cnt l1).cnt l2).hooks,
       (processInsts e dl fid bbid blocks k (p + l1.length)
         (slot + slotDeltaList e dl.ptrBits0 l1)
         (processInsts e dl fid bbid blocks k p slot cnt l1).cnt l2).cnt⟩ := by
  induction l1 with
  | nil => intro p slot cnt; simp [processInsts, slotDeltaList]
  | cons i rest ih =>
      intro p slot cnt
      have harith : p + (rest.length + 1) = (p + 1) + rest.length := by omega
      have hslot : slot + slotDeltaList e dl.ptrBits0 (i :: rest)
          = (slot + slotStep e dl.ptrBits0 i) + slotDeltaList e dl.ptrBits0 rest := by
        simp [slotDeltaList]; omega
      simp only [List.cons_append, processInsts, List.append_eq]
      rw [ih (p + 1) (slot + slotStep e dl.ptrBits0 i)
        (processInst e dl fid bbid blocks k p slot cnt i).cnt]
      simp only [List.length_cons, harith, hslot, List.append_assoc]

lemma processInsts_spec (e : Bool) (dl : DataLayoutInfo) (fid bbid : Nat)
    (blocks : List BasicBlock) (k : Nat) (l : List Inst) :
    ∀ (p slot : Nat) (cnt : Counters),
    (processInsts e dl fid bbid blocks k p slot cnt l).cnt.nextMemInstId
        = cnt.nextMemInstId + countMemList l ∧
    (processInsts e dl fid bbid blocks k p slot cnt l).cnt.nextBranchInstId
        = cnt.nextBranchInstId + countBranchList l ∧
    (processInsts e dl fid bbid blocks k p slot cnt l).cnt.nextCallInstId
        = cnt.nextCallInstId + countCallList l ∧
    (processInsts e dl fid bbid blocks k p slot cnt l).records.length = countMemList l ∧
    idsOfClass isMemKind (processInsts e dl fid bbid blocks k p slot cnt l).infos
        = idRange cnt.nextMemInstId (countMemList l) ∧
    idsOfClass isBranchKind (processInsts e dl fid bbid blocks k p slot cnt l).infos
        = idRange cnt.nextBranchInstId (countBranchList l) ∧
    idsOfClass isCallKind (processInsts e dl fid bbid blocks k p slot cnt l).infos
        = idRange cnt.nextCallInstId (countCallList l) := by
  induction l with
  | nil =>
      intro p slot cnt
      simp [processInsts, countMemList, countBranchList, countCallList, idsOfClass, idRange]
  | cons i rest ih =>
      intro p slot cnt
      obtain ⟨h1, h2, h3, h4, h5, h6, h7⟩ :=
        processInst_spec e dl fid bbid blocks k p slot cnt i
      obtain ⟨g1, g2, g3, g4, g5, g6, g7⟩ :=
        ih (p + 1) (slot + slotStep e dl.ptrBits0 i)
          (processInst e dl fid bbid blocks k p slot cnt i).cnt
      simp only [processInsts, idsOfClass_append, List.length_append,
        countMemList_cons, countBranchList_cons, countCallList_cons]
      refine ⟨?_, ?_, ?_, ?_, ?_, ?_, ?_⟩
      · rw [g1, h1]; omega
      · rw [g2, h2]; omega
      · rw [g3, h3]; omega
      · rw [g4, h4]
      · rw [h5, g5, h1]
        by_cases hm : isMemInst i
        · simp only [hm, if_true]
          rw [Nat.add_comm 1 (countMemList rest)]
          simp [idRange]
        · simp [hm]
      · rw [h6, g6, h2]
        by_cases hb : isBranchInst i
        · simp only [hb, if_true]
          rw [Nat.add_comm 1 (countBranchList rest)]
          simp [idRange]
        · simp [hb]
      · rw [h7, g7, h3]
        by_cases hc : isInstrumentedCallInst i
        · simp only [hc, if_true]
          rw [Nat.add_comm 1 (countCallList rest)]
          simp [idRange]
        · simp [hc]

/-- Over the same instruction list, the two modes produce the same
text-erased descriptor entries, the same records, and the same counters
(only the hooks and the printed texts differ). -/
lemma processInsts_mode (e e' : Bool) (dl : DataLayoutInfo) (fid bbid : Nat)
    (blocks : List BasicBlock) (k : Nat) (l : List Inst) :
    ∀ (p slot slot' : Nat) (cnt : Counters),
    (processInsts e dl fid bbid blocks k p slot cnt l).infos.map stripText
        = (processInsts e' dl fid bbid blocks k p slot' cnt l).infos.map stripText ∧
    (processInsts e dl fid bbid blocks k p slot cnt l).records
        = (processInsts e' dl fid bbid blocks k p slot' cnt l).records ∧
    (processInsts e dl fid bbid blocks k p slot cnt l).cnt
        = (processInsts e' dl fid bbid blocks k p slot' cnt l).cnt := by
  induction l with
  | nil => intro p slot slot' cnt; simp [processInsts]
  | cons i rest ih =>
      intro p slot slot' cnt
      obtain ⟨h1, h2, h3⟩ :=
        processInst_stripped e e' dl fid bbid blocks k p slot slot' cnt i
      obtain ⟨g1, g2, g3⟩ :=
        ih (p + 1) (slot + slotStep e dl.ptrBits0 i) (slot' + slotStep e' dl.ptrBits0 i)
          (processInst e dl fid bbid blocks k p slot cnt i).cnt
      simp only [processInsts, List.map_append]
      rw [← h3]
      refine ⟨?_, ?_, g3⟩
      · rw [optionToListMap, optionToListMap, h1, g1]
      · rw [h2, g2]

/-- For a fixed mode, the text-erased descriptor entries, the hooks and the
counters do not depend on the starting label position or printer slot. -/
lemma processInsts_site (e : Bool) (dl : DataLayoutInfo) (fid bbid : Nat)
    (blocks : List BasicBlock) (k : Nat) (l : List Inst) :
    ∀ (p p' slot slot' : Nat) (cnt : Counters),
    (processInsts e dl fid bbid blocks k p slot cnt l).infos.map stripText
        = (processInsts e dl fid bbid blocks k p' slot' cnt l).infos.map stripText ∧
    (processInsts e dl fid bbid blocks k p slot cnt l).hooks
        = (processInsts e dl fid bbid blocks k p' slot' cnt l).hooks ∧
    (processInsts e dl fid bbid blocks k p slot cnt l).cnt
        = (processInsts e dl fid bbid blocks k p' slot' cnt l).cnt := by
  induction l with
  | nil => intro p p' slot slot' cnt; simp [processInsts]
  | cons i rest ih =>
      intro p p' slot slot' cnt
      obtain ⟨h1, h2, h3⟩ :=
        processInst_site e dl fid bbid blocks k p p' slot slot' cnt i
      obtain ⟨g1, g2, g3⟩ :=
        ih (p + 1) (p' + 1) (slot + slotStep e dl.ptrBits0 i)
          (slot' + slotStep e dl.ptrBits0 i)
          (processInst e dl fid bbid blocks k p slot cnt i).cnt
      simp only [processInsts, List.map_append]
      rw [← h3]
      refine ⟨?_, ?_, g3⟩
      · rw [optionToListMap, optionToListMap, h1, g1]
      · rw [h2, g2]

lemma processInsts_hooks_false (dl : DataLayoutInfo) (fid bbid : Nat)
    (blocks : List BasicBlock) (k : Nat) (l : List Inst) :
    ∀ (p slot : Nat) (cnt : Counters),
    (processInsts false dl fid bbid blocks k p slot cnt l).hooks = [] := by
  induction l with
  | nil => intro p slot cnt; simp [processInsts]
  | cons i rest ih =>
      intro p slot cnt
      simp [processInsts, processInst_hooks_false, ih]

lemma processInsts_runtime_cons (e : Bool) (dl : DataLayoutInfo) (fid bbid : Nat)
    (blocks : List BasicBlock) (k p slot : Nat) (cnt : Counters) (i : Inst) (l : List Inst)
    (h : isRuntimeCallInst i = true) :
    processInsts e dl fid bbid blocks k p slot cnt (i :: l)
      = processInsts e dl fid bbid blocks k (p + 1)
          (slot + slotStep e dl.ptrBits0 i) cnt l := by
  simp [processInsts, processInst_runtime e dl fid bbid blocks k p slot cnt i h]

lemma bbHook_runtime : isRuntimeCallInst bbHookCallInst = true := by decide

lemma loopHook_runtime : isRuntimeCallInst loopHookCallInst = true := by decide

lemma hookInsts_not_counted :
    isMemInst bbHookCallInst = false ∧ isMemInst loopHookCallInst = false ∧
    isBranchInst bbHookCallInst = false ∧ isBranchInst loopHookCallInst = false ∧
    isInstrumentedCallee (Callee.fn "__bbtrace_on_basic_block" false) = false ∧
    isInstrumentedCallee (Callee.fn "__bbtrace_on_loop" false) = false := by decide

/-- The inserted hook calls are void and define no value: they do not move
the printer slot counter. -/
lemma slotStep_hooks (e : Bool) (dp : Nat) :
    slotStep e dp loopHookCallInst = 0 ∧ slotStep e dp bbHookCallInst = 0 := by
  constructor <;>
    simp [slotStep, resultSlots, insertedValueSlots, bbHookCallInst, loopHookCallInst,
      hookInsts_not_counted.2.2.2.2.1, hookInsts_not_counted.2.2.2.2.2]

/-- Inserting the block-entry hook calls between any two instruction segments
does not change the text-erased descriptor infos, the hooks, or the counters
the loop produces: the runtime-call filter skips them (only the inline-asm
label positions and the slot numbering of later texts shift). -/
lemma processInsts_insert_hooks (e hdr : Bool) (dl : DataLayoutInfo) (fid bbid : Nat)
    (blocks : List BasicBlock) (k : Nat) (T D : List Inst)
    (p p' slot slot' : Nat) (cnt : Counters) :
    ((processInsts e dl fid bbid blocks k p slot cnt
        (T ++ (if hdr then [loopHookCallInst] else []) ++ [bbHookCallInst] ++ D)).infos.map
          stripText
      = (processInsts e dl fid bbid blocks k p' slot' cnt (T ++ D)).infos.map stripText) ∧
    ((processInsts e dl fid bbid blocks k p slot cnt
        (T ++ (if hdr then [loopHookCallInst] else []) ++ [bbHookCallInst] ++ D)).hooks
      = (processInsts e dl fid bbid blocks k p' slot' cnt (T ++ D)).hooks) ∧
    ((processInsts e dl fid bbid blocks k p slot cnt
        (T ++ (if hdr then [loopHookCallInst] else []) ++ [bbHookCallInst] ++ D)).cnt
      = (processInsts e dl fid bbid blocks k p' slot' cnt (T ++ D)).cnt) := by
  obtain ⟨t1, t2, t3⟩ := processInsts_site e dl fid bbid blocks k T p p' slot slot' cnt
  have hmid :
      ∀ (q qs : Nat) (c : Counters),
      processInsts e dl fid bbid blocks k q qs c
          ((if hdr then [loopHookCallInst] else []) ++ [bbHookCallInst] ++ D)
        = processInsts e dl fid bbid blocks k
            (q + (if hdr then 2 else 1)) qs c D := by
    intro q qs c
    cases hdr with
    | false =>
        have hl : ((if false then [loopHookCallInst] else []) ++ [bbHookCallInst] ++ D)
            = bbHookCallInst :: D := by simp
        rw [hl,
          processInsts_runtime_cons e dl fid bbid blocks k q qs c bbHookCallInst D
            bbHook_runtime, (slotStep_hooks e dl.ptrBits0).2]
        simp
    | true =>
        have hl : ((if true then [loopHookCallInst] else []) ++ [bbHookCallInst] ++ D)
            = loopHookCallInst :: (bbHookCallInst :: D) := by simp
        rw [hl,
          processInsts_runtime_cons e dl fid bbid blocks k q qs c loopHookCallInst
            (bbHookCallInst :: D) loopHook_runtime,
          (slotStep_hooks e dl.ptrBits0).1,
          processInsts_runtime_cons e dl fid bbid blocks k (q + 1) (qs + 0) c
            bbHookCallInst D bbHook_runtime,
          (slotStep_hooks e dl.ptrBits0).2]
        simp
  rw [List.append_assoc, List.append_assoc, ← List.append_assoc
    (if hdr then [loopHookCallInst] else []),
    processInsts_append e dl fid bbid blocks k T
      ((if hdr then [loopHookCallInst] else []) ++ [bbHookCallInst] ++ D) p slot cnt,
    processInsts_append e dl fid bbid blocks k T D p' slot' cnt,
    hmid]
  obtain ⟨d1, d2, d3⟩ := processInsts_site e dl fid bbid blocks k D
    (p + T.length + (if hdr then 2 else 1)) (p' + T.length)
    (slot + slotDeltaList e dl.ptrBits0 T) (slot' + slotDeltaList e dl.ptrBits0 T)
    (processInsts e dl fid bbid blocks k p slot cnt T).cnt
  simp only [List.map_append, t1, t2, t3] at *
  simp [d1, d2, d3]

/-- The iterated instruction sequence of a block produces the same
text-erased infos, hooks and counters as the original instruction list. -/
lemma processInsts_iterated (e hdr : Bool) (dl : DataLayoutInfo) (fid bbid : Nat)
    (blocks : List BasicBlock) (k : Nat) (insts : List Inst)
    (p p' slot slot' : Nat) (cnt : Counters) :
    ((processInsts e dl fid bbid blocks k p slot cnt
        (iteratedInsts e hdr insts)).infos.map stripText
      = (processInsts e dl fid bbid blocks k p' slot' cnt insts).infos.map stripText) ∧
    ((processInsts e dl fid bbid blocks k p slot cnt (iteratedInsts e hdr insts)).hooks
      = (processInsts e dl fid bbid blocks k p' slot' cnt insts).hooks) ∧
    ((processInsts e dl fid bbid blocks k p slot cnt (iteratedInsts e hdr insts)).cnt
      = (processInsts e dl fid bbid blocks k p' slot' cnt insts).cnt) := by
  cases e with
  | false =>
      simp only [iteratedInsts, Bool.false_eq_true, if_false]
      exact processInsts_site false dl fid bbid blocks k insts p p' slot slot' cnt
  | true =>
      have hTD : insts.takeWhile isPhi ++ insts.dropWhile isPhi = insts := by
        simp [List.takeWhile_append_dropWhile]
      have h := processInsts_insert_hooks true hdr dl fid bbid blocks k
        (insts.takeWhile isPhi) (insts.dropWhile isPhi) p p' slot slot' cnt
      rw [hTD] at h
      simpa only [iteratedInsts, if_true] using h

lemma processInsts_reserved (e : Bool) (dl : DataLayoutInfo) (fid bbid : Nat)
    (blocks : List BasicBlock) (k : Nat) (l : List Inst) :
    ∀ (p slot : Nat) (cnt : Counters),
    ∀ r ∈ (processInsts e dl fid bbid blocks k p slot cnt l).records, r.reserved = 0 := by
  induction l with
  | nil => intro p slot cnt; simp [processInsts]
  | cons i rest ih =>
      intro p slot cnt r hr
      simp only [processInsts, List.mem_append] at hr
      rcases hr with hr | hr
      · exact processInst_reserved e dl fid bbid blocks k p slot cnt i r hr
      · exact ih (p + 1) (slot + slotStep e dl.ptrBits0 i)
          (processInst e dl fid bbid blocks k p slot cnt i).cnt r hr

lemma countMemList_iterated (e hdr : Bool) (insts : List Inst) :
    countMemList (iteratedInsts e hdr insts) = countMemList insts := by
  cases e with
  | false => simp [iteratedInsts]
  | true =>
      have hTD : insts.takeWhile isPhi ++ insts.dropWhile isPhi = insts := by
        simp [List.takeWhile_append_dropWhile]
      cases hdr <;>
        simp [iteratedInsts, countMemList_append, countMemList_cons, countMemList,
          hookInsts_not_counted.1, hookInsts_not_counted.2.1] <;>
      rw [← countMemList_append, hTD]

lemma countBranchList_iterated (e hdr : Bool) (insts : List Inst) :
    countBranchList (iteratedInsts e hdr insts) = countBranchList insts := by
  cases e with
  | false => simp [iteratedInsts]
  | true =>
      have hTD : insts.takeWhile isPhi ++ insts.dropWhile isPhi = insts := by
        simp [List.takeWhile_append_dropWhile]
      cases hdr <;>
        simp [iteratedInsts, countBranchList_append, countBranchList_cons, countBranchList,
          hookInsts_not_counted.2.2.1, hookInsts_not_counted.2.2.2.1] <;>
      rw [← countBranchList_append, hTD]

lemma countCallList_iterated (e hdr : Bool) (insts : List Inst) :
    countCallList (iteratedInsts e hdr insts) = countCallList insts := by
  cases e with
  | false => simp [iteratedInsts]
  | true =>
      have hTD : insts.takeWhile isPhi ++ insts.dropWhile isPhi = insts := by
        simp [List.takeWhile_append_dropWhile]
      cases hdr <;>
        simp [iteratedInsts, countCallList_append, countCallList_cons, countCallList,
          hookInsts_not_counted.2.2.2.2.1, hookInsts_not_counted.2.2.2.2.2] <;>
      rw [← countCallList_append, hTD]

/-! ### Per-block-loop lemmas -/

lemma processBlocks_mode (e e' : Bool) (dl : DataLayoutInfo) (fid : Nat) (fname : String)
    (blocks : List BasicBlock) (bs : List BasicBlock) :
    ∀ (idx slot slot' : Nat) (cnt : Counters),
    (processBlocks e dl fid fname blocks idx slot cnt bs).staticInfos.map stripBlockText
      = (processBlocks e' dl fid fname blocks idx slot' cnt bs).staticInfos.map stripBlockText ∧
    (processBlocks e dl fid fname blocks idx slot cnt bs).pcInfos
      = (processBlocks e' dl fid fname blocks idx slot' cnt bs).pcInfos ∧
    (processBlocks e dl fid fname blocks idx slot cnt bs).cnt
      = (processBlocks e' dl fid fname blocks idx slot' cnt bs).cnt := by
  induction bs with
  | nil => intro idx slot slot' cnt; simp [processBlocks]
  | cons bb rest ih =>
      intro idx slot slot' cnt
      obtain ⟨a1, _, a3⟩ := processInsts_iterated e bb.isLoopHeader dl fid idx blocks bb.key
        bb.insts 0 0 (slot + (if bb.name.isNone then 1 else 0)) 0 cnt
      obtain ⟨b1, _, b3⟩ := processInsts_mode e e' dl fid idx blocks bb.key bb.insts 0 0 0 cnt
      obtain ⟨c1, _, c3⟩ := processInsts_iterated e' bb.isLoopHeader dl fid idx blocks bb.key
        bb.insts 0 0 (slot' + (if bb.name.isNone then 1 else 0)) 0 cnt
      have hinfos :
          (processInsts e dl fid idx blocks bb.key 0
              (slot + (if bb.name.isNone then 1 else 0)) cnt
              (iteratedInsts e bb.isLoopHeader bb.insts)).infos.map stripText
            = (processInsts e' dl fid idx blocks bb.key 0
                (slot' + (if bb.name.isNone then 1 else 0)) cnt
                (iteratedInsts e' bb.isLoopHeader bb.insts)).infos.map stripText :=
        a1.trans (b1.trans c1.symm)
      have hcnt :
          (processInsts e dl fid idx blocks bb.key 0
              (slot + (if bb.name.isNone then 1 else 0)) cnt
              (iteratedInsts e bb.isLoopHeader bb.insts)).cnt
            = (processInsts e' dl fid idx blocks bb.key 0
                (slot' + (if bb.name.isNone then 1 else 0)) cnt
                (iteratedInsts e' bb.isLoopHeader bb.insts)).cnt :=
        a3.trans (b3.trans c3.symm)
      obtain ⟨i1, i2, i3⟩ := ih (idx + 1)
        ((slot + (if bb.name.isNone then 1 else 0))
          + slotDeltaList e dl.ptrBits0 (iteratedInsts e bb.isLoopHeader bb.insts))
        ((slot' + (if bb.name.isNone then 1 else 0))
          + slotDeltaList e' dl.ptrBits0 (iteratedInsts e' bb.isLoopHeader bb.insts))
        (processInsts e dl fid idx blocks bb.key 0
          (slot + (if bb.name.isNone then 1 else 0)) cnt
          (iteratedInsts e bb.isLoopHeader bb.insts)).cnt
      simp only [processBlocks, List.map_cons]
      rw [← hcnt]
      refine ⟨?_, ?_, i3⟩
      · simp only [stripBlockText]
        rw [hinfos, i1]
      · rw [i2]

lemma processBlocks_pcInfos (e : Bool) (dl : DataLayoutInfo) (fid : Nat) (fname : String)
    (blocks : List BasicBlock) (bs : List BasicBlock) :
    ∀ (idx slot : Nat) (cnt : Counters),
    (processBlocks e dl fid fname blocks idx slot cnt bs).pcInfos = pcMapSpec fid idx bs := by
  induction bs with
  | nil => intro idx slot cnt; simp [processBlocks, pcMapSpec]
  | cons bb rest ih =>
      intro idx slot cnt
      simp [processBlocks, pcMapSpec, ih]

lemma processBlocks_hooks_false (dl : DataLayoutInfo) (fid : Nat) (fname : String)
    (blocks : List BasicBlock) (bs : List BasicBlock) :
    ∀ (idx slot : Nat) (cnt : Counters),
    (processBlocks false dl fid fname blocks idx slot cnt bs).hooks = [] := by
  induction bs with
  | nil => intro idx slot cnt; simp [processBlocks]
  | cons bb rest ih =>
      intro idx slot cnt
      simp [processBlocks, entryHooks, processInsts_hooks_false, ih, iteratedInsts]

lemma processBlocks_spec (e : Bool) (dl : DataLayoutInfo) (fid : Nat) (fname : String)
    (blocks : List BasicBlock) (bs : List BasicBlock) :
    ∀ (idx slot : Nat) (cnt : Counters),
    (processBlocks e dl fid fname blocks idx slot cnt bs).records.length
        = (bs.map (fun b => countMemList b.insts)).sum ∧
    idsOfClass isMemKind
        (flatInsts (processBlocks e dl fid fname blocks idx slot cnt bs).staticInfos)
        = idRange cnt.nextMemInstId ((bs.map (fun b => countMemList b.insts)).sum) ∧
    idsOfClass isBranchKind
        (flatInsts (processBlocks e dl fid fname blocks idx slot cnt bs).staticInfos)
        = idRange cnt.nextBranchInstId ((bs.map (fun b => countBranchList b.insts)).sum) ∧
    idsOfClass isCallKind
        (flatInsts (processBlocks e dl fid fname blocks idx slot cnt bs).staticInfos)
        = idRange cnt.nextCallInstId ((bs.map (fun b => countCallList b.insts)).sum) ∧
    (processBlocks e dl fid fname blocks idx slot cnt bs).cnt.nextMemInstId
        = cnt.nextMemInstId + (bs.map (fun b => countMemList b.insts)).sum ∧
    (processBlocks e dl fid fname blocks idx slot cnt bs).cnt.nextBranchInstId
        = cnt.nextBranchInstId + (bs.map (fun b => countBranchList b.insts)).sum ∧
    (processBlocks e dl fid fname blocks idx slot cnt bs).cnt.nextCallInstId
        = cnt.nextCallInstId + (bs.map (fun b => countCallList b.insts)).sum := by
  induction bs with
  | nil =>
      intro idx slot cnt
      simp [processBlocks, flatInsts, idsOfClass, idRange]
  | cons bb rest ih =>
      intro idx slot cnt
      obtain ⟨h1, h2, h3, h4, h5, h6, h7⟩ := processInsts_spec e dl fid idx blocks bb.key
        (iteratedInsts e bb.isLoopHeader bb.insts) 0
        (slot + (if bb.name.isNone then 1 else 0)) cnt
      obtain ⟨g1, g2, g3, g4, g5, g6, g7⟩ := ih (idx + 1)
        ((slot + (if bb.name.isNone then 1 else 0))
          + slotDeltaList e dl.ptrBits0 (iteratedInsts e bb.isLoopHeader bb.insts))
        (processInsts e dl fid idx blocks bb.key 0
          (slot + (if bb.name.isNone then 1 else 0)) cnt
          (iteratedInsts e bb.isLoopHeader bb.insts)).cnt
      simp only [countMemList_iterated, countBranchList_iterated, countCallList_iterated]
        at h1 h2 h3 h4 h5 h6 h7
      simp only [processBlocks, List.map_cons, List.sum_cons, flatInsts_cons,
        idsOfClass_append, List.length_append]
      refine ⟨?_, ?_, ?_, ?_, ?_, ?_, ?_⟩
      · rw [g1, h4]
      · rw [h5, g2, h1, idRange_append]
      · rw [h6, g3, h2, idRange_append]
      · rw [h7, g4, h3, idRange_append]
      · rw [g5, h1]; omega
      · rw [g6, h2]; omega
      · rw [g7, h3]; omega

lemma processBlocks_reserved (e : Bool) (dl : DataLayoutInfo) (fid : Nat) (fname : String)
    (blocks : List BasicBlock) (bs : List BasicBlock) :
    ∀ (idx slot : Nat) (cnt : Counters),
    ∀ r ∈ (processBlocks e dl fid fname blocks idx slot cnt bs).records, r.reserved = 0 := by
  induction bs with
  | nil => intro idx slot cnt; simp [processBlocks]
  | cons bb rest ih =>
      intro idx slot cnt r hr
      simp only [processBlocks, List.mem_append] at hr
      rcases hr with hr | hr
      · exact processInsts_reserved e dl fid idx blocks bb.key
          (iteratedInsts e bb.isLoopHeader bb.insts) 0
          (slot + (if bb.name.isNone then 1 else 0)) cnt r hr
      · exact ih (idx + 1) _ _ r hr

/-! ### Module-level lemmas -/

lemma processFunctions_mode (e e' : Bool) (dl : DataLayoutInfo) (fs : List IRFunc) :
    ∀ (fid : Nat),
    (processFunctions e dl fid fs).staticInfos.map stripBlockText
        = (processFunctions e' dl fid fs).staticInfos.map stripBlockText ∧
    (processFunctions e dl fid fs).pcInfos = (processFunctions e' dl fid fs).pcInfos := by
  induction fs with
  | nil => intro fid; simp [processFunctions]
  | cons F rest ih =>
      intro fid
      by_cases hF : isEligible F
      · obtain ⟨m1, m2, _⟩ := processBlocks_mode e e' dl fid (funcDisplayName F fid)
          F.blocks F.blocks 0 0 0 ⟨0, 0, 0⟩
        obtain ⟨i1, i2⟩ := ih (fid + 1)
        simp only [processFunctions, hF, if_true, List.map_append, instrumentFunction]
        exact ⟨by rw [m1, i1], by rw [m2, i2]⟩
      · obtain ⟨i1, i2⟩ := ih fid
        simp [processFunctions, hF, i1, i2]

lemma processFunctions_records_length (e : Bool) (dl : DataLayoutInfo) (fs : List IRFunc) :
    ∀ (fid : Nat),
    (processFunctions e dl fid fs).records.length
        = ((fs.filter isEligible).map countMemFunc).sum := by
  induction fs with
  | nil => intro fid; simp [processFunctions]
  | cons F rest ih =>
      intro fid
      by_cases hF : isEligible F
      · have h := (processBlocks_spec e dl fid (funcDisplayName F fid)
          F.blocks F.blocks 0 0 ⟨0, 0, 0⟩).1
        simp [processFunctions, hF, instrumentFunction, List.filter_cons, h,
          ih (fid + 1), countMemFunc]
      · simp [processFunctions, hF, List.filter_cons, ih fid]

lemma processFunctions_reserved (e : Bool) (dl : DataLayoutInfo) (fs : List IRFunc) :
    ∀ (fid : Nat),
    ∀ r ∈ (processFunctions e dl fid fs).records, r.reserved = 0 := by
  induction fs with
  | nil => intro fid; simp [processFunctions]
  | cons F rest ih =>
      intro fid r hr
      by_cases hF : isEligible F
      · simp only [processFunctions, hF, if_true, List.mem_append] at hr
        rcases hr with hr | hr
        · exact processBlocks_reserved e dl fid (funcDisplayName F fid)
            F.blocks F.blocks 0 0 ⟨0, 0, 0⟩ r hr
        · exact ih (fid + 1) r hr
      · simp only [processFunctions, hF, if_false] at hr
        exact ih fid r hr

lemma processFunctions_hooks_false (dl : DataLayoutInfo) (fs : List IRFunc) :
    ∀ (fid : Nat), (processFunctions false dl fid fs).hooks = [] := by
  induction fs with
  | nil => intro fid; simp [processFunctions]
  | cons F rest ih =>
      intro fid
      by_cases hF : isEligible F
      · simp [processFunctions, hF, instrumentFunction, processBlocks_hooks_false,
          ih (fid + 1)]
      · simp [processFunctions, hF, ih fid]

lemma processFunctions_ineligible (e : Bool) (dl : DataLayoutInfo) (fs : List IRFunc)
    (h : ∀ F ∈ fs, isEligible F = false) :
    ∀ (fid : Nat), processFunctions e dl fid fs = ⟨[], [], [], []⟩ := by
  induction fs with
  | nil => intro fid; simp [processFunctions]
  | cons F rest ih =>
      intro fid
      have hF : isEligible F = false := h F (by simp)
      have hrest : ∀ G ∈ rest, isEligible G = false := fun G hG => h G (by simp [hG])
      simp [processFunctions, hF, ih hrest fid]

lemma pcMapSpec_funcPtr (fid : Nat) (bs : List BasicBlock) :
    ∀ (idx : Nat), ∀ p ∈ pcMapSpec fid idx bs,
    (decide (p.bbId = 0)) = p.address.isFuncPtr := by
  induction bs with
  | nil => intro idx p hp; simp [pcMapSpec] at hp
  | cons bb rest ih =>
      intro idx p hp
      simp only [pcMapSpec, List.mem_cons] at hp
      rcases hp with rfl | hp
      · by_cases hz : idx = 0 <;> simp [hz, Addr.isFuncPtr]
      · exact ih (idx + 1) p hp

lemma processFunctions_pcInfos_funcPtr (e : Bool) (dl : DataLayoutInfo) (fs : List IRFunc) :
    ∀ (fid : Nat), ∀ p ∈ (processFunctions e dl fid fs).pcInfos,
    (decide (p.bbId = 0)) = p.address.isFuncPtr := by
  induction fs with
  | nil => intro fid p hp; simp [processFunctions] at hp
  | cons F rest ih =>
      intro fid p hp
      by_cases hF : isEligible F
      · simp only [processFunctions, hF, if_true, List.mem_append] at hp
        rcases hp with hp | hp
        · rw [instrumentFunction, processBlocks_pcInfos] at hp
          exact pcMapSpec_funcPtr fid F.blocks 0 p hp
        · exact ih (fid + 1) p hp
      · simp only [processFunctions, hF, if_false] at hp
        exact ih fid p hp

lemma fit64_eq (bw v : Nat) (hv : v < 2 ^ max bw 1) :
    fit64 bw v = v % 2 ^ 64 ∧ (bw ≤ 64 → fit64 bw v = v) ∧ fit64 bw v < 2 ^ 64 := by
  have hpow : (0 : Nat) < 2 ^ 64 := Nat.pos_pow_of_pos 64 (by norm_num)
  by_cases h : bw < 64
  · have hle : max bw 1 ≤ 64 := by omega
    have hvlt : v < 2 ^ 64 :=
      lt_of_lt_of_le hv (Nat.pow_le_pow_right (by norm_num) hle)
    have hfe : fit64 bw v = v := by simp [fit64, zextVal, h]
    exact ⟨by rw [hfe, Nat.mod_eq_of_lt hvlt], fun _ => hfe, by rw [hfe]; exact hvlt⟩
  · by_cases h2 : 64 < bw
    · have hfe : fit64 bw v = v % 2 ^ 64 := by simp [fit64, truncVal, h, h2]
      exact ⟨hfe, fun hc => absurd hc (by omega), by rw [hfe]; exact Nat.mod_lt v hpow⟩
    · have hb : bw = 64 := by omega
      subst hb
      have hvlt : v < 2 ^ 64 := by simpa using hv
      have hfe : fit64 64 v = v := by simp [fit64]
      exact ⟨by rw [hfe, Nat.mod_eq_of_lt hvlt], fun _ => hfe, by rw [hfe]; exact hvlt⟩

/-! ### Claim theorems -/

/-- Claim C1, as stated, is false on the code: the instrumented-call arm of
`instrumentFunction` never calls `emitInstPcRecord`, so a module whose only
instrumented instruction is a call produces zero `.bbtrace_inst` records
while the claimed total (loads + stores + calls) is one. -/
theorem C1_records_count_counterexample :
    ¬ ((instrumentModule true dl0 exCallM).records.length
        = countMemModule exCallM + countCallModule exCallM) := by decide

/-- Claim C1, amended: the pass emits exactly one `.bbtrace_inst` record, with
reserved field 0, per instrumented load and store — and none for calls — so
the total record count equals the number of loads and stores across all
eligible blocks, in either mode. -/
theorem C1_records_count_amended (e : Bool) (dl : DataLayoutInfo) (M : IRModule) :
    (instrumentModule e dl M).records.length = countMemModule M ∧
    ((instrumentModule e dl M).records.all (fun r => r.reserved == 0)) = true := by
  constructor
  · simpa [instrumentModule, countMemModule] using
      processFunctions_records_length e dl M.functions 0
  · rw [List.all_eq_true]
    intro r hr
    have := processFunctions_reserved e dl M.functions 0 r
      (by simpa [instrumentModule] using hr)
    simp [this]

/-- Claim C2, as stated, is false on the code: a call to a `__bbtrace_`-named
function hits the `continue` at the top of the per-instruction loop before
the descriptor push, so the call does not appear in the block's descriptor
record at all (not even with kind `"generic"`).  In the fixture the source
block has two instructions but the descriptor lists only one, and no listed
instruction carries the runtime call's printed text. -/
theorem C2_runtime_call_counterexample :
    (¬ ∃ i ∈ flatInsts (instrumentFunction true dl0 0 exRuntimeCallF).staticInfos,
        i.buffer = printInstructionAt 0 (Inst.call (Callee.fn "__bbtrace_helper" false) [])) ∧
    (flatInsts (instrumentFunction true dl0 0 exRuntimeCallF).staticInfos).length = 1 ∧
    (exRuntimeCallF.blocks.map (fun b => b.insts.length)) = [2] := by decide

/-- Claim C2, amended: for a call whose callee name begins with `__bbtrace_`,
the pass allocates no `inst_id` (counters unchanged), inserts no hook, emits
no `.bbtrace_inst` record, and pushes no descriptor entry — the call is
skipped entirely. -/
theorem C2_runtime_call_amended (e : Bool) (dl : DataLayoutInfo) (fid bbid : Nat)
    (blocks : List BasicBlock) (k p slot : Nat) (cnt : Counters) (c : Callee)
    (args : List ArgTy) (h : isBbtraceRuntimeCall c = true) :
    processInst e dl fid bbid blocks k p slot cnt (Inst.call c args) = ⟨none, [], [], cnt⟩ :=
  processInst_runtime e dl fid bbid blocks k p slot cnt (Inst.call c args)
    (by simp [isRuntimeCallInst, h])

theorem C2_runtime_call_amended_witness :
    isBbtraceRuntimeCall (Callee.fn "__bbtrace_helper" false) = true ∧
    processInst true dl0 0 0 [] 0 0 0 ⟨0, 0, 0⟩
        (Inst.call (Callee.fn "__bbtrace_helper" false) []) = ⟨none, [], [], ⟨0, 0, 0⟩⟩ :=
  ⟨by decide,
   C2_runtime_call_amended true dl0 0 0 [] 0 0 0 ⟨0, 0, 0⟩
     (Callee.fn "__bbtrace_helper" false) [] (by decide)⟩

/-- Claim C3, as stated, is false on the code: in static-only mode the calls
to `emitInstPcRecord` for loads and stores sit outside the
`EnableInstrumentation` guard, so inline-assembly `.bbtrace_inst` records are
still injected — on a module with one load the section has one record, not
zero. -/
theorem C3_static_only_counterexample :
    isStaticOnlyMode (some "1") = true ∧
    ¬ ((runPass (some "1") dl0 exLoadM).records = []) := by decide

/-- Claim C3, amended: with the static-only flag set, no ctor/dtor pair is
added and no hook call is inserted, but the pass still emits one
`.bbtrace_inst` inline-assembly record per load and store, so the section is
nonempty whenever the module has an eligible load or store. -/
theorem C3_static_only_amended (env : Option String) (dl : DataLayoutInfo) (M : IRModule)
    (h : isStaticOnlyMode env = true) :
    (runPass env dl M).ctorDtor = none ∧
    (runPass env dl M).hooks = [] ∧
    (runPass env dl M).records.length = countMemModule M := by
  unfold runPass
  rw [h]
  refine ⟨by simp [instrumentModule], ?_, ?_⟩
  · simpa [instrumentModule] using processFunctions_hooks_false dl M.functions 0
  · simpa [instrumentModule, countMemModule] using
      processFunctions_records_length false dl M.functions 0

theorem C3_static_only_amended_witness :
    isStaticOnlyMode (some "1") = true ∧
    ((runPass (some "1") dl0 exLoadM).ctorDtor = none ∧
     (runPass (some "1") dl0 exLoadM).hooks = [] ∧
     (runPass (some "1") dl0 exLoadM).records.length = countMemModule exLoadM) :=
  ⟨by decide, C3_static_only_amended (some "1") dl0 exLoadM (by decide)⟩

set_option maxRecDepth 4096 in
/-- Claim C4, as stated, is false on the code: the instrumented-mode
insertions define unnamed values (two `select`s at the conditional branch),
which shift the printer's numbering of every later unnamed value, so the
printed text of the next block's load — and hence the descriptor file
bytes — differ between static-only mode and instrumented mode on `exBrM`
(`%0 = load ...` versus `%2 = load ...`). -/
theorem C4_descriptor_bytes_counterexample :
    ¬ ((instrumentModule false dl0 exBrM).descriptor
        = (instrumentModule true dl0 exBrM).descriptor) ∧
    (flatInsts (instrumentModule false dl0 exBrM).staticInfos).map (fun i => i.buffer)
      = ["  br c1 k2 k0", "  %0 = load p3 size 4", "  other"] ∧
    (flatInsts (instrumentModule true dl0 exBrM).staticInfos).map (fun i => i.buffer)
      = ["  br c1 k2 k0", "  %2 = load p3 size 4", "  other"] := by decide

/-- Claim C4, amended: for the same input module, static-only mode and
instrumented mode produce descriptor records that agree in everything except
the printed instruction text — same `func_id`, `func_name`, `bb_id`,
`bb_name`, `header`, and per-instruction kind / `inst_id` / branch targets,
with the pass's own inserted instructions never listed — and identical
`.bbtrace_map` array contents.  Only each instruction's `text` field may
differ, through the renumbering of unnamed values. -/
theorem C4_static_instrumented_amended (dl : DataLayoutInfo) (M : IRModule) :
    (instrumentModule false dl M).staticInfos.map stripBlockText
        = (instrumentModule true dl M).staticInfos.map stripBlockText ∧
    (instrumentModule false dl M).pcInfos = (instrumentModule true dl M).pcInfos ∧
    (instrumentModule false dl M).pcMap = (instrumentModule true dl M).pcMap := by
  obtain ⟨h1, h2⟩ := processFunctions_mode false true dl M.functions 0
  refine ⟨by simpa [instrumentModule] using h1,
    by simp [instrumentModule, h2], by simp [instrumentModule, h2]⟩

/-- Claim C5: within each function the `inst_id`s of the memory class
(loads and stores), the branch class, and the instrumented-call class each
form the contiguous range `0, 1, ...` in block-then-instruction traversal
order, independently of whether instrumentation is enabled (the statement
holds for every value of `e`). -/
theorem C5_dense_ids (e : Bool) (dl : DataLayoutInfo) (fid : Nat) (F : IRFunc) :
    idsOfClass isMemKind (flatInsts (instrumentFunction e dl fid F).staticInfos)
        = idRange 0 (countMemFunc F) ∧
    idsOfClass isBranchKind (flatInsts (instrumentFunction e dl fid F).staticInfos)
        = idRange 0 (countBranchFunc F) ∧
    idsOfClass isCallKind (flatInsts (instrumentFunction e dl fid F).staticInfos)
        = idRange 0 (countCallFunc F) := by
  obtain ⟨_, h2, h3, h4, _, _, _⟩ := processBlocks_spec e dl fid (funcDisplayName F fid)
    F.blocks F.blocks 0 0 ⟨0, 0, 0⟩
  exact ⟨h2, h3, h4⟩

/-- Claim C6: the PC-map entries of a function are exactly one per block in
traversal order, the entry block (index 0) carrying the function pointer and
every other block its block-address constant; across a whole module an
entry's address is the function pointer exactly when its `bb_id` is 0. -/
theorem C6_entry_addresses (e : Bool) (dl : DataLayoutInfo) (fid : Nat) (F : IRFunc)
    (M : IRModule) :
    (instrumentFunction e dl fid F).pcInfos = pcMapSpec fid 0 F.blocks ∧
    ((instrumentModule e dl M).pcInfos.all
      (fun p => (decide (p.bbId = 0)) == p.address.isFuncPtr)) = true := by
  constructor
  · rw [instrumentFunction, processBlocks_pcInfos]
  · rw [List.all_eq_true]
    intro p hp
    have := processFunctions_pcInfos_funcPtr e dl M.functions 0 p
      (by simpa [instrumentModule] using hp)
    simp [this]

/-- Claim C7: a conditional branch's descriptor record lists exactly the
true-successor's and then the false-successor's block id; an unconditional
branch lists one target; the branch hook's taken id and taken address are
selects on the branch condition that evaluate to successor 0's values when
the condition is true and successor 1's when false. -/
theorem C7_branch_targets_select (e : Bool) (dl : DataLayoutInfo) (fid bbid : Nat)
    (blocks : List BasicBlock) (k p slot : Nat) (cnt : Counters) (c s0 s1 : Nat)
    (env : Nat → Bool) :
    ((processInst e dl fid bbid blocks k p slot cnt (Inst.brCond c s0 s1)).info.map
        (fun i => i.branchTargets))
      = some [lookupBlockId blocks s0, lookupBlockId blocks s1] ∧
    ((processInst e dl fid bbid blocks k p slot cnt (Inst.brUncond s0)).info.map
        (fun i => i.branchTargets))
      = some [lookupBlockId blocks s0] ∧
    (processInst true dl fid bbid blocks k p slot cnt (Inst.brCond c s0 s1)).hooks
      = [Hook.onBranch fid bbid cnt.nextBranchInstId
          (SelVal.select c (lookupBlockId blocks s0) (lookupBlockId blocks s1))
          (SelVal.select c (Addr.blockAddr fid s0) (Addr.blockAddr fid s1))] ∧
    SelVal.eval env (SelVal.select c (lookupBlockId blocks s0) (lookupBlockId blocks s1))
      = (if env c then lookupBlockId blocks s0 else lookupBlockId blocks s1) ∧
    SelVal.eval env (SelVal.select c (Addr.blockAddr fid s0) (Addr.blockAddr fid s1))
      = (if env c then Addr.blockAddr fid s0 else Addr.blockAddr fid s1) := by
  refine ⟨?_, ?_, ?_, rfl, rfl⟩ <;> simp [processInst, isRuntimeCallInst]

/-- Claim C8: every marshalled call-hook value occupies 64 bits and is
obtained from the original bit pattern by zero-extension or truncation only
(`value = v % 2^64`, and the value is preserved exactly whenever the original
width is at most 64 — no sign-extension); the recorded bitwidth is the
resolved original width; arguments of any other type are recorded with the
type's store size in bits (minimum 1), value 0 and kind unknown. -/
theorem C8_marshalling (dl : Nat) (ty : ArgTy) (v : Nat)
    (hv : v < 2 ^ argBitWidth dl ty) :
    (materializeCallArg dl ty v).bitWidth = resolvedWidth dl ty ∧
    (materializeCallArg dl ty v).value < 2 ^ 64 ∧
    (isOtherTy ty = false →
      (materializeCallArg dl ty v).value = v % 2 ^ 64 ∧
      (argBitWidth dl ty ≤ 64 → (materializeCallArg dl ty v).value = v) ∧
      (materializeCallArg dl ty v).kind ≠ CallArgKind.unknown) ∧
    (isOtherTy ty = true →
      (materializeCallArg dl ty v).kind = CallArgKind.unknown ∧
      (materializeCallArg dl ty v).value = 0) := by
  cases ty with
  | pointer asBits =>
      simp only [argBitWidth, resolvedWidth] at hv
      have hmod : ptrToInt (max (if asBits = 0 then dl else asBits) 1) v = v :=
        Nat.mod_eq_of_lt hv
      obtain ⟨f1, f2, f3⟩ := fit64_eq (if asBits = 0 then dl else asBits) v hv
      refine ⟨by simp [materializeCallArg, resolvedWidth], ?_, ?_, by simp [isOtherTy]⟩
      · simpa [materializeCallArg, hmod] using f3
      · intro _
        refine ⟨by simpa [materializeCallArg, hmod] using f1, ?_,
          by simp [materializeCallArg]⟩
        intro hle
        simp only [argBitWidth, resolvedWidth] at hle
        have hb : (if asBits = 0 then dl else asBits) ≤ 64 :=
          le_trans (le_max_left _ _) hle
        simpa [materializeCallArg, hmod] using f2 hb
  | integer w =>
      simp only [argBitWidth, resolvedWidth] at hv
      obtain ⟨f1, f2, f3⟩ := fit64_eq w v hv
      refine ⟨by simp [materializeCallArg, resolvedWidth], ?_, ?_, by simp [isOtherTy]⟩
      · simpa [materializeCallArg] using f3
      · intro _
        refine ⟨by simpa [materializeCallArg] using f1, ?_, by simp [materializeCallArg]⟩
        intro hle
        simp only [argBitWidth, resolvedWidth] at hle
        have hb : w ≤ 64 := le_trans (le_max_left _ _) hle
        simpa [materializeCallArg] using f2 hb
  | floating sb storeb =>
      simp only [argBitWidth, resolvedWidth] at hv
      obtain ⟨f1, f2, f3⟩ := fit64_eq (if sb = 0 then storeb else sb) v hv
      refine ⟨by simp [materializeCallArg, resolvedWidth], ?_, ?_, by simp [isOtherTy]⟩
      · simpa [materializeCallArg, bitcastToIntVal] using f3
      · intro _
        refine ⟨by simpa [materializeCallArg, bitcastToIntVal] using f1, ?_,
          by simp [materializeCallArg]⟩
        intro hle
        simp only [argBitWidth, resolvedWidth] at hle
        have hb : (if sb = 0 then storeb else sb) ≤ 64 :=
          le_trans (le_max_left _ _) hle
        simpa [materializeCallArg, bitcastToIntVal] using f2 hb
  | other storeb =>
      refine ⟨by simp [materializeCallArg, resolvedWidth],
        by norm_num [materializeCallArg], by simp [isOtherTy],
        fun _ => ⟨by simp [materializeCallArg], by simp [materializeCallArg]⟩⟩

theorem C8_marshalling_witness :
    (42 < 2 ^ argBitWidth 64 (ArgTy.integer 32)) ∧
    ((materializeCallArg 64 (ArgTy.integer 32) 42).bitWidth
        = resolvedWidth 64 (ArgTy.integer 32) ∧
     (materializeCallArg 64 (ArgTy.integer 32) 42).value < 2 ^ 64 ∧
     (isOtherTy (ArgTy.integer 32) = false →
       (materializeCallArg 64 (ArgTy.integer 32) 42).value = 42 % 2 ^ 64 ∧
       (argBitWidth 64 (ArgTy.integer 32) ≤ 64 →
         (materializeCallArg 64 (ArgTy.integer 32) 42).value = 42) ∧
       (materializeCallArg 64 (ArgTy.integer 32) 42).kind ≠ CallArgKind.unknown) ∧
     (isOtherTy (ArgTy.integer 32) = true →
       (materializeCallArg 64 (ArgTy.integer 32) 42).kind = CallArgKind.unknown ∧
       (materializeCallArg 64 (ArgTy.integer 32) 42).value = 0)) :=
  ⟨by decide, C8_marshalling 64 (ArgTy.integer 32) 42 (by decide)⟩

/-- Claim C9 (code bug): the pass does emit the PC map as a constant global
in a section named exactly `.bbtrace_map`, aligned to the platform pointer
size — but it marks the global only via `appendToCompilerUsed`
(`llvm.compiler.used`, line 637), and that marking does not survive
link-time dead-stripping: `survivesLinkGC` of the emitted retention is
`false`, where the claim (and spec section 4.4, "the pass must mark it so
the linker keeps it") requires `llvm.used`. -/
theorem C9_pcmap_retention_bug :
    (runPass none dl0 exLoadM).pcMap = some exLoadPcMap ∧
    exLoadPcMap.sectionName = ".bbtrace_map" ∧
    exLoadPcMap.alignment = dl0.ptrBytes ∧
    exLoadPcMap.isConstant = true ∧
    exLoadPcMap.retention = RetentionMarking.compilerUsed ∧
    survivesLinkGC exLoadPcMap.retention = false := by decide

/-- Claim C10: on a module with no eligible (function, block) pair, the pass
creates no descriptor file and no `.bbtrace_map` global, yet in instrumented
mode it still adds the module-name global and the ctor/dtor pair registering
`__bbtrace_register_module` and `__bbtrace_finalize` at priority 0. -/
theorem C10_no_eligible (dl : DataLayoutInfo) (M : IRModule)
    (h : ∀ F ∈ M.functions, isEligible F = false) :
    (instrumentModule true dl M).descriptor = none ∧
    (instrumentModule true dl M).pcMap = none ∧
    (instrumentModule true dl M).ctorDtor
      = some ⟨"__bbtrace_register_module", M.moduleId, "__bbtrace_finalize", 0, M.moduleId⟩ := by
  have hempty := processFunctions_ineligible true dl M.functions h 0
  simp [instrumentModule, hempty, dumpBasicBlockInfo, emitPcMap, ensureCtorDtor]

theorem C10_no_eligible_witness :
    (∀ F ∈ exIneligibleM.functions, isEligible F = false) ∧
    ((instrumentModule true dl0 exIneligibleM).descriptor = none ∧
     (instrumentModule true dl0 exIneligibleM).pcMap = none ∧
     (instrumentModule true dl0 exIneligibleM).ctorDtor
       = some ⟨"__bbtrace_register_module", exIneligibleM.moduleId, "__bbtrace_finalize", 0,
           exIneligibleM.moduleId⟩) :=
  ⟨by decide, C10_no_eligible dl0 exIneligibleM (by decide)⟩

end BBTrace
